import Mathlib

/-!
Verification development for the cua repository.

Shallow embedding of three components and the properties claimed about them:
the image-retention callback (`agent/callbacks/image_retention.py`), the
trajectory replay engine (`cua_bench/replay.py`), and the milestone screenshot
tool (`agent/tools/milestone.py`).

Python dictionaries and JSON values are embedded as `JVal`; dictionaries are
association lists read and written in insertion order, matching CPython dict
semantics for the operations the code uses (`get`, `in`, key assignment).
-/

/-- JSON-like dynamic values, the data the Python code manipulates. -/
inductive JVal where
  | null
  | bool (b : Bool)
  | num (n : Int)
  | str (s : String)
  | arr (items : List JVal)
  | obj (fields : List (String × JVal))

/-- Python `d.get(key)`: first binding of `key`, if any. -/
def dictGet : List (String × JVal) → String → Option JVal
  | [], _ => none
  | (k, v) :: rest, key => if k = key then some v else dictGet rest key

/-- Python `d[key] = val`: replace the value at `key` in place, or append. -/
def dictSet : List (String × JVal) → String → JVal → List (String × JVal)
  | [], key, val => [(key, val)]
  | (k, v) :: rest, key, val =>
    if k = key then (k, val) :: rest else (k, v) :: dictSet rest key val

/-- Python `key in d`. -/
def dictHasKey (l : List (String × JVal)) (key : String) : Bool :=
  (dictGet l key).isSome

/-- Python `v == s` for a string literal `s`: true only when `v` is that string. -/
def jvalEqStr (v : JVal) (s : String) : Bool :=
  match v with
  | .str t => t = s
  | _ => false

/-- Python `d.get(key) == s` for a string literal `s`. -/
def optEqStr (o : Option JVal) (s : String) : Bool :=
  match o with
  | some v => jvalEqStr v s
  | none => false

/-- Python truthiness of a JSON value. -/
def truthy : JVal → Bool
  | .null => false
  | .bool b => b
  | .num n => n != 0
  | .str s => s ≠ ""
  | .arr items => !items.isEmpty
  | .obj fields => !fields.isEmpty

/-- Python truthiness of a `d.get(key)` result (`None` is falsy). -/
def optTruthy (o : Option JVal) : Bool :=
  match o with
  | some v => truthy v
  | none => false

/-!
Retention policy engine: `ImageRetentionCallback._apply_image_retention`.
-/

/-- Test from the index-gathering loop of `_apply_image_retention`:
`isinstance(msg, dict) and msg.get("type") == "computer_call_output"` and
`isinstance(out, dict) and ("image_url" in out)`. -/
def isImageOutput (m : JVal) : Bool :=
  match m with
  | .obj fields =>
    optEqStr (dictGet fields "type") "computer_call_output" &&
      (match dictGet fields "output" with
       | some (.obj out) => dictHasKey out "image_url"
       | _ => false)
  | _ => false

/-- Indices of image-bearing `computer_call_output` messages, counting from `k`:
the `for idx, msg in enumerate(messages)` gathering loop. -/
def outputIndicesFrom (k : Nat) : List JVal → List Nat
  | [] => []
  | m :: rest =>
    if isImageOutput m then k :: outputIndicesFrom (k + 1) rest
    else outputIndicesFrom (k + 1) rest

/-- The gathered `output_indices` list. -/
def outputIndices (messages : List JVal) : List Nat :=
  outputIndicesFrom 0 messages

/-- Python slice `l[-n:]` for a natural `n`. For `n = 0` the slice is `l[0:]`,
the whole list, because `-0 == 0` in Python. -/
def lastSlice (l : List Nat) (n : Nat) : List Nat :=
  if n = 0 then l else l.drop (l.length - n)

/-- Mutation step of `_apply_image_retention` at one index:
`output = msg.get("output", {}); if isinstance(output, dict):
output["image_url"] = "[omitted]"`. A message without a dict `output`
is left unchanged (the default `{}` is mutated and discarded). -/
def redactMsg (m : JVal) : JVal :=
  match m with
  | .obj fields =>
    match dictGet fields "output" with
    | some (.obj out) =>
      .obj (dictSet fields "output" (.obj (dictSet out "image_url" (.str "[omitted]"))))
    | _ => m
  | _ => m

/-- In-place update `modified_messages[idx]` by the mutation step. -/
def redactAt (msgs : List JVal) (idx : Nat) : List JVal :=
  msgs.set idx (redactMsg (msgs.getD idx .null))

/-- The redaction loop: `for idx in output_indices: if idx in
keep_output_indices: continue; <mutate>`. -/
def redactLoop (idxs keep : List Nat) (msgs : List JVal) : List JVal :=
  idxs.foldl (fun acc idx => if idx ∈ keep then acc else redactAt acc idx) msgs

/-- `ImageRetentionCallback._apply_image_retention`. `only_n` is the
`only_n_most_recent_images` setting (`none` embeds Python `None`); the
source's locals `output_indices` and `keep_output_indices` are inlined:
`keep_output_indices = output_indices[-n:]` and the final loop is
`redactLoop`. -/
def apply_image_retention (only_n : Option Nat) (messages : List JVal) : List JVal :=
  match only_n with
  | none => messages
  | some n =>
    if (outputIndices messages).length ≤ n then messages
    else redactLoop (outputIndices messages) (lastSlice (outputIndices messages) n) messages

/-- A `computer_call_output` message with image payload `v`, for tests. -/
def mkImgMsg (v : JVal) : JVal :=
  .obj [("type", .str "computer_call_output"), ("output", .obj [("image_url", v)])]

example : apply_image_retention (some 1) [mkImgMsg (.str "A"), mkImgMsg (.str "B")] =
    [mkImgMsg (.str "[omitted]"), mkImgMsg (.str "B")] := rfl

example : apply_image_retention (some 0) [mkImgMsg (.str "A")] = [mkImgMsg (.str "A")] := rfl

/-!
Dictionary lemmas used by the retention proofs.
-/

/-- Python `del`-free removal of every binding of a key; used only to state
the frame property (everything except `image_url` is preserved). -/
def dictRemove : List (String × JVal) → String → List (String × JVal)
  | [], _ => []
  | (k, v) :: rest, key =>
    if k = key then dictRemove rest key else (k, v) :: dictRemove rest key

theorem dictGet_dictSet_self (l : List (String × JVal)) (k : String) (v : JVal) :
    dictGet (dictSet l k v) k = some v := by
  induction l with
  | nil => simp [dictSet, dictGet]
  | cons p rest ih =>
    obtain ⟨pk, pv⟩ := p
    by_cases h : pk = k <;> simp [dictSet, dictGet, h, ih]

theorem dictGet_dictSet_ne (l : List (String × JVal)) (k key : String) (v : JVal)
    (h : k ≠ key) : dictGet (dictSet l k v) key = dictGet l key := by
  induction l with
  | nil => simp [dictSet, dictGet, h]
  | cons p rest ih =>
    obtain ⟨pk, pv⟩ := p
    by_cases hpk : pk = k <;> by_cases hpkey : pk = key <;>
      simp_all [dictSet, dictGet]

theorem dictSet_dictSet_self (l : List (String × JVal)) (k : String) (v w : JVal) :
    dictSet (dictSet l k v) k w = dictSet l k w := by
  induction l with
  | nil => simp [dictSet]
  | cons p rest ih =>
    obtain ⟨pk, pv⟩ := p
    by_cases h : pk = k <;> simp [dictSet, h, ih]

theorem dictRemove_dictSet_self (l : List (String × JVal)) (k : String) (v : JVal) :
    dictRemove (dictSet l k v) k = dictRemove l k := by
  induction l with
  | nil => simp [dictSet, dictRemove]
  | cons p rest ih =>
    obtain ⟨pk, pv⟩ := p
    by_cases h : pk = k <;> simp [dictSet, dictRemove, h, ih]

/-!
Per-message redaction lemmas.
-/

/-- Canonical form of a message with the `image_url` binding of its `output`
dict dropped: two messages agree on every other field exactly when their
scrubbed forms are equal. -/
def scrubImageUrl (m : JVal) : JVal :=
  match m with
  | .obj fields =>
    match dictGet fields "output" with
    | some (.obj out) => .obj (dictSet fields "output" (.obj (dictRemove out "image_url")))
    | _ => m
  | _ => m

theorem redactMsg_idempotent (m : JVal) : redactMsg (redactMsg m) = redactMsg m := by
  cases m with
  | obj fields =>
    cases hout : dictGet fields "output" with
    | none => simp [redactMsg, hout]
    | some v =>
      cases v <;>
        simp [redactMsg, hout, dictGet_dictSet_self, dictSet_dictSet_self]
  | null => rfl
  | bool b => rfl
  | num n => rfl
  | str s => rfl
  | arr items => rfl

theorem scrubImageUrl_redactMsg (m : JVal) :
    scrubImageUrl (redactMsg m) = scrubImageUrl m := by
  cases m with
  | obj fields =>
    cases hout : dictGet fields "output" with
    | none => simp [redactMsg, hout]
    | some v =>
      cases v <;>
        simp [redactMsg, scrubImageUrl, hout, dictGet_dictSet_self,
          dictSet_dictSet_self, dictRemove_dictSet_self]
  | null => rfl
  | bool b => rfl
  | num n => rfl
  | str s => rfl
  | arr items => rfl

theorem isImageOutput_redactMsg (m : JVal) (h : isImageOutput m = true) :
    isImageOutput (redactMsg m) = true := by
  cases m with
  | obj fields =>
    cases hout : dictGet fields "output" with
    | none => simp [isImageOutput, hout] at h
    | some v =>
      cases v with
      | obj out =>
        simp [isImageOutput, hout] at h
        simp [redactMsg, hout, isImageOutput, dictGet_dictSet_self,
          dictGet_dictSet_ne _ _ _ _ (by decide : ("output" : String) ≠ "type"),
          dictHasKey, h.1]
      | null => simp [isImageOutput, hout] at h
      | bool b => simp [isImageOutput, hout] at h
      | num n => simp [isImageOutput, hout] at h
      | str s => simp [isImageOutput, hout] at h
      | arr items => simp [isImageOutput, hout] at h
  | null => simp [isImageOutput] at h
  | bool b => simp [isImageOutput] at h
  | num n => simp [isImageOutput] at h
  | str s => simp [isImageOutput] at h
  | arr items => simp [isImageOutput] at h

/-!
Pointwise characterization of the redaction loop.
-/

theorem redactAt_getElem? (msgs : List JVal) (i j : Nat) :
    (redactAt msgs i)[j]? =
      if j = i then (msgs[j]?).map redactMsg else msgs[j]? := by
  unfold redactAt
  rw [List.getElem?_set]
  by_cases h : i = j
  · subst h
    by_cases hlt : i < msgs.length
    · have hget : msgs[i]? = some msgs[i] := List.getElem?_eq_getElem hlt
      simp [hlt, hget, List.getD_eq_getElem?_getD]
    · have hnone : msgs[i]? = none := List.getElem?_eq_none (Nat.le_of_not_lt hlt)
      simp [hlt, hnone]
  · rw [if_neg h, if_neg (fun hh : j = i => h hh.symm)]

theorem redactLoop_getElem? (idxs keep : List Nat) (msgs : List JVal) (j : Nat)
    (hnd : idxs.Nodup) :
    (redactLoop idxs keep msgs)[j]? =
      if j ∈ idxs ∧ j ∉ keep then (msgs[j]?).map redactMsg else msgs[j]? := by
  induction idxs generalizing msgs with
  | nil => simp [redactLoop]
  | cons i rest ih =>
    obtain ⟨hi, hr⟩ := List.nodup_cons.mp hnd
    have hstep : redactLoop (i :: rest) keep msgs =
        redactLoop rest keep (if i ∈ keep then msgs else redactAt msgs i) := rfl
    rw [hstep, ih _ hr]
    by_cases hik : i ∈ keep <;> by_cases hji : j = i <;>
      by_cases hjr : j ∈ rest <;> by_cases hjk : j ∈ keep <;>
      simp_all [redactAt_getElem?, List.mem_cons]

theorem redactLoop_length (idxs keep : List Nat) (msgs : List JVal) :
    (redactLoop idxs keep msgs).length = msgs.length := by
  induction idxs generalizing msgs with
  | nil => rfl
  | cons i rest ih =>
    have hstep : redactLoop (i :: rest) keep msgs =
        redactLoop rest keep (if i ∈ keep then msgs else redactAt msgs i) := rfl
    rw [hstep, ih]
    by_cases hik : i ∈ keep <;> simp [hik, redactAt, List.length_set]

/-!
Lemmas about the gathered index list.
-/

theorem le_of_mem_outputIndicesFrom (msgs : List JVal) (k i : Nat)
    (h : i ∈ outputIndicesFrom k msgs) : k ≤ i := by
  induction msgs generalizing k with
  | nil => simp [outputIndicesFrom] at h
  | cons m rest ih =>
    by_cases hp : isImageOutput m <;> simp [outputIndicesFrom, hp] at h
    · rcases h with rfl | h
      · exact Nat.le_refl _
      · have := ih (k + 1) h; omega
    · have := ih (k + 1) h; omega

theorem isImageOutput_of_mem_outputIndicesFrom (msgs : List JVal) (k i : Nat)
    (h : i ∈ outputIndicesFrom k msgs) :
    (msgs[i - k]?).map isImageOutput = some true := by
  induction msgs generalizing k with
  | nil => simp [outputIndicesFrom] at h
  | cons m rest ih =>
    by_cases hp : isImageOutput m <;> simp [outputIndicesFrom, hp] at h
    · rcases h with rfl | h
      · simp [Nat.sub_self, hp]
      · have hk := le_of_mem_outputIndicesFrom rest (k + 1) i h
        have hik : i - k = (i - (k + 1)) + 1 := by omega
        rw [hik]
        simpa using ih (k + 1) h
    · have hk := le_of_mem_outputIndicesFrom rest (k + 1) i h
      have hik : i - k = (i - (k + 1)) + 1 := by omega
      rw [hik]
      simpa using ih (k + 1) h

theorem nodup_outputIndicesFrom (msgs : List JVal) (k : Nat) :
    (outputIndicesFrom k msgs).Nodup := by
  induction msgs generalizing k with
  | nil => simp [outputIndicesFrom]
  | cons m rest ih =>
    by_cases hp : isImageOutput m = true
    · simp only [outputIndicesFrom]
      rw [if_pos hp]
      refine List.nodup_cons.mpr ⟨fun hmem => ?_, ih (k + 1)⟩
      have := le_of_mem_outputIndicesFrom rest (k + 1) k hmem; omega
    · simp only [outputIndicesFrom]
      rw [if_neg hp]
      exact ih (k + 1)

theorem outputIndicesFrom_congr (l₁ l₂ : List JVal) (k : Nat)
    (h : l₁.map isImageOutput = l₂.map isImageOutput) :
    outputIndicesFrom k l₁ = outputIndicesFrom k l₂ := by
  induction l₁ generalizing l₂ k with
  | nil => cases l₂ with
    | nil => rfl
    | cons b bs => simp at h
  | cons a as ih =>
    cases l₂ with
    | nil => simp at h
    | cons b bs =>
      simp only [List.map_cons, List.cons.injEq] at h
      obtain ⟨h1, h2⟩ := h
      simp only [outputIndicesFrom, h1, ih bs (k + 1) h2]

theorem redactLoop_map_isImageOutput (idxs keep : List Nat) (msgs : List JVal)
    (hnd : idxs.Nodup)
    (him : ∀ j ∈ idxs, (msgs[j]?).map isImageOutput = some true) :
    (redactLoop idxs keep msgs).map isImageOutput = msgs.map isImageOutput := by
  apply List.ext_getElem?
  intro n
  rw [List.getElem?_map, List.getElem?_map, redactLoop_getElem? _ _ _ _ hnd]
  by_cases hn : n ∈ idxs ∧ n ∉ keep
  · rw [if_pos hn]
    have hmask := him n hn.1
    cases hm : msgs[n]? with
    | none => rw [hm] at hmask; simp at hmask
    | some m =>
      rw [hm] at hmask
      have hmm : isImageOutput m = true := by simpa using hmask
      simp [isImageOutput_redactMsg m hmm, hmm]
  · rw [if_neg hn]

/-!
Retention claim theorems.
-/

theorem nodup_outputIndices (msgs : List JVal) : (outputIndices msgs).Nodup :=
  nodup_outputIndicesFrom msgs 0

theorem apply_image_retention_length (n : Option Nat) (msgs : List JVal) :
    (apply_image_retention n msgs).length = msgs.length := by
  cases n with
  | none => rfl
  | some n =>
    simp only [apply_image_retention]
    split
    · rfl
    · exact redactLoop_length _ _ _

theorem apply_image_retention_map_scrub (n : Option Nat) (msgs : List JVal) :
    (apply_image_retention n msgs).map scrubImageUrl = msgs.map scrubImageUrl := by
  cases n with
  | none => rfl
  | some n =>
    simp only [apply_image_retention]
    split
    · rfl
    · apply List.ext_getElem?
      intro j
      rw [List.getElem?_map, List.getElem?_map,
        redactLoop_getElem? _ _ _ _ (nodup_outputIndices msgs)]
      split
      · cases hm : msgs[j]? <;> simp [scrubImageUrl_redactMsg]
      · rfl

/-- C1 (supporting evaluation for the code bug): with the retention budget set
to `0` and a single image-bearing `computer_call_output` message present, the
code keeps the image untouched instead of redacting it, because the Python
slice `output_indices[-0:]` is the whole index list, so every index lands in
`keep_output_indices`. The claim (and the method docstring, which promises to
keep only the N most recent images) requires the image to be replaced by
`"[omitted]"`. -/
theorem retention_zero_budget_keeps_image :
    apply_image_retention (some 0) [mkImgMsg (.str "data:image/png;base64,AAAA")] =
      [mkImgMsg (.str "data:image/png;base64,AAAA")] := rfl

/-- C2: the retention transform is idempotent — applying
`_apply_image_retention` twice with the same budget (set or unset) yields the
same message list as applying it once. -/
theorem retention_idempotent (n : Option Nat) (msgs : List JVal) :
    apply_image_retention n (apply_image_retention n msgs) =
      apply_image_retention n msgs := by
  cases n with
  | none => rfl
  | some n =>
    by_cases hle : (outputIndices msgs).length ≤ n
    · simp [apply_image_retention, hle]
    · have hnd := nodup_outputIndices msgs
      have him : ∀ j ∈ outputIndices msgs,
          (msgs[j]?).map isImageOutput = some true := by
        intro j hj
        simpa using isImageOutput_of_mem_outputIndicesFrom msgs 0 j hj
      have hfirst : apply_image_retention (some n) msgs =
          redactLoop (outputIndices msgs) (lastSlice (outputIndices msgs) n) msgs := by
        simp only [apply_image_retention]
        rw [if_neg hle]
      have hmask := redactLoop_map_isImageOutput (outputIndices msgs)
        (lastSlice (outputIndices msgs) n) msgs hnd him
      have hidx : outputIndices
          (redactLoop (outputIndices msgs) (lastSlice (outputIndices msgs) n) msgs) =
          outputIndices msgs :=
        outputIndicesFrom_congr _ _ 0 hmask
      rw [hfirst]
      simp only [apply_image_retention]
      rw [hidx, if_neg hle]
      apply List.ext_getElem?
      intro j
      rw [redactLoop_getElem? (outputIndices msgs) (lastSlice (outputIndices msgs) n)
          (redactLoop (outputIndices msgs) (lastSlice (outputIndices msgs) n) msgs) j hnd,
        redactLoop_getElem? (outputIndices msgs) (lastSlice (outputIndices msgs) n) msgs j hnd]
      split
      · cases msgs[j]? <;> simp [redactMsg_idempotent]
      · rfl

/-- C6: the retention transform is a frame-preserving redaction — the output
has the same number of messages in the same order, and every field of every
message other than the `image_url` binding inside the `output` dict is equal
to the corresponding input field (messages agree after scrubbing that one
binding). The input list itself is untouched: the source deep-copies before
mutating, which the pure embedding models by value semantics. -/
theorem retention_frame (n : Option Nat) (msgs : List JVal) :
    (apply_image_retention n msgs).length = msgs.length ∧
      (apply_image_retention n msgs).map scrubImageUrl = msgs.map scrubImageUrl :=
  ⟨apply_image_retention_length n msgs, apply_image_retention_map_scrub n msgs⟩

theorem mem_outputIndicesFrom_of (msgs : List JVal) (k i : Nat) (hk : k ≤ i)
    (h : (msgs[i - k]?).map isImageOutput = some true) :
    i ∈ outputIndicesFrom k msgs := by
  induction msgs generalizing k with
  | nil => simp at h
  | cons m rest ih =>
    by_cases hik : i = k
    · subst hik
      have hm : isImageOutput m = true := by simpa [Nat.sub_self] using h
      simp [outputIndicesFrom, hm]
    · have hk1 : k + 1 ≤ i := by omega
      have hi : i - k = (i - (k + 1)) + 1 := by omega
      rw [hi] at h
      have h2 : (rest[i - (k + 1)]?).map isImageOutput = some true := by
        simpa using h
      have hmem := ih (k + 1) hk1 h2
      by_cases hp : isImageOutput m = true <;> simp [outputIndicesFrom, hp, hmem]

/-- C10: for every message list and every set budget `n`, a message at any
position `i` that is a dict with `type = "computer_call_output"` whose
`output` dict binds the key `image_url` to any value `v` whatsoever — in
particular the sentinel `"[omitted]"` — is counted into the gathered
`output_indices`, and whenever its index lies in the kept slice
`output_indices[-n:]` (it is among the last `n` such messages) the transform
returns it unchanged: it occupies one of the `n` kept slots. -/
theorem retention_counts_image_key_regardless_of_value
    (msgs : List JVal) (n : Nat) (i : Nat)
    (fields out : List (String × JVal)) (v : JVal)
    (hmsg : msgs[i]? = some (.obj fields))
    (htype : dictGet fields "type" = some (.str "computer_call_output"))
    (hout : dictGet fields "output" = some (.obj out))
    (hkey : dictGet out "image_url" = some v) :
    i ∈ outputIndices msgs ∧
      (i ∈ lastSlice (outputIndices msgs) n →
        (apply_image_retention (some n) msgs)[i]? = some (.obj fields)) := by
  have him : isImageOutput (.obj fields) = true := by
    simp [isImageOutput, htype, hout, dictHasKey, hkey, optEqStr, jvalEqStr]
  have hmem : i ∈ outputIndices msgs :=
    mem_outputIndicesFrom_of msgs 0 i (Nat.zero_le i) (by simp [hmsg, him])
  refine ⟨hmem, fun hkeep => ?_⟩
  simp only [apply_image_retention]
  split
  · exact hmsg
  · rw [redactLoop_getElem? _ _ _ _ (nodup_outputIndices msgs)]
    rw [if_neg (fun hc => hc.2 hkeep)]
    exact hmsg

theorem retention_counts_image_key_regardless_of_value_witness :
    1 ∈ outputIndices [mkImgMsg (.str "A"), mkImgMsg (.str "[omitted]")] ∧
      (1 ∈ lastSlice (outputIndices [mkImgMsg (.str "A"), mkImgMsg (.str "[omitted]")]) 1 →
        (apply_image_retention (some 1)
            [mkImgMsg (.str "A"), mkImgMsg (.str "[omitted]")])[1]? =
          some (.obj [("type", .str "computer_call_output"),
                      ("output", .obj [("image_url", .str "[omitted]")])])) :=
  retention_counts_image_key_regardless_of_value
    [mkImgMsg (.str "A"), mkImgMsg (.str "[omitted]")] 1 1
    [("type", .str "computer_call_output"),
     ("output", .obj [("image_url", .str "[omitted]")])]
    [("image_url", .str "[omitted]")] (.str "[omitted]") rfl rfl rfl rfl

/-!
Trajectory replay: `cua_bench/replay.py`.
-/

/-- Action-extraction loop of `replay_trajectory`: for each item of
`kwargs.messages`, when it is a dict with `type == "computer_call"`, read
`action = item.get("action", {})` and `action_type = action.get("type")`,
and collect the action when `action_type` is truthy and not `"screenshot"`.
A present but non-dict `action` value raises (`.get` on a non-dict), which
the `Except` error embeds. -/
def collectActions : List JVal → Except String (List JVal)
  | [] => .ok []
  | item :: rest =>
    match item with
    | .obj fields =>
      if optEqStr (dictGet fields "type") "computer_call" then
        match dictGet fields "action" with
        | some (.obj afields) =>
          if optTruthy (dictGet afields "type") &&
              !(optEqStr (dictGet afields "type") "screenshot") then
            (collectActions rest).map (fun tail => .obj afields :: tail)
          else collectActions rest
        | some _ => .error "AttributeError: action value has no attribute get"
        | none => collectActions rest
      else collectActions rest
    | _ => collectActions rest

/-- Declarative per-message extraction following the spec (section 4.2): an
action-request (`type == "computer_call"`) carries its action, collected
unless the action's own `type` is missing/falsy or equals the observation
marker `"screenshot"`; every other message yields nothing. -/
def pickAction (item : JVal) : Option JVal :=
  match item with
  | .obj fields =>
    if optEqStr (dictGet fields "type") "computer_call" then
      match dictGet fields "action" with
      | some (.obj afields) =>
        if optTruthy (dictGet afields "type") &&
            !(optEqStr (dictGet afields "type") "screenshot") then
          some (.obj afields)
        else none
      | _ => none
    else none
  | _ => none

/-- Shape needed for extraction not to raise: on a `computer_call` message
the `action` value, when present, is a dict. -/
def actionFieldIsDict (item : JVal) : Bool :=
  match item with
  | .obj fields =>
    if optEqStr (dictGet fields "type") "computer_call" then
      match dictGet fields "action" with
      | some (.obj _) => true
      | some _ => false
      | none => true
    else true
  | _ => true

/-- C4: the extraction pass returns exactly the actions of `computer_call`
messages, in their original relative order, excluding actions typed
`"screenshot"`; non-action-requests and action-requests whose action lacks a
(truthy) type are skipped without error, and a history with no
action-requests yields `.ok []`, not an error. -/
theorem parser_extracts_actions (msgs : List JVal)
    (h : msgs.all actionFieldIsDict = true) :
    collectActions msgs = .ok (msgs.filterMap pickAction) := by
  induction msgs with
  | nil => rfl
  | cons item rest ih =>
    rw [List.all_cons, Bool.and_eq_true] at h
    obtain ⟨h1, h2⟩ := h
    have ihr := ih h2
    cases item with
    | obj fields =>
      by_cases hcc : optEqStr (dictGet fields "type") "computer_call" = true
      · cases ha : dictGet fields "action" with
        | none => simp [collectActions, pickAction, hcc, ha, ihr]
        | some v =>
          cases v with
          | obj afields =>
            by_cases htr : (optTruthy (dictGet afields "type") &&
                !(optEqStr (dictGet afields "type") "screenshot")) = true
            · simp [collectActions, pickAction, hcc, ha, htr, ihr, Except.map]
            · simp [collectActions, pickAction, hcc, ha, htr, ihr]
          | null => simp [actionFieldIsDict, hcc, ha] at h1
          | bool b => simp [actionFieldIsDict, hcc, ha] at h1
          | num n => simp [actionFieldIsDict, hcc, ha] at h1
          | str s => simp [actionFieldIsDict, hcc, ha] at h1
          | arr items => simp [actionFieldIsDict, hcc, ha] at h1
      · simp [collectActions, pickAction, hcc, ihr]
    | null => simp [collectActions, pickAction, ihr]
    | bool b => simp [collectActions, pickAction, ihr]
    | num n => simp [collectActions, pickAction, ihr]
    | str s => simp [collectActions, pickAction, ihr]
    | arr items => simp [collectActions, pickAction, ihr]

/-- Sample history: a reasoning item, a screenshot call, a real click call,
a call whose action has no type, and a stray non-dict item. -/
def sampleMessages : List JVal := [
  .obj [("type", .str "reasoning"), ("content", .str "thinking")],
  .obj [("type", .str "computer_call"),
        ("action", .obj [("type", .str "screenshot")])],
  .obj [("type", .str "computer_call"),
        ("action", .obj [("type", .str "click"), ("x", .num 10), ("y", .num 20)])],
  .obj [("type", .str "computer_call"),
        ("action", .obj [("button", .str "left")])],
  .str "stray"]

theorem parser_extracts_actions_witness :
    collectActions sampleMessages =
      .ok [.obj [("type", .str "click"), ("x", .num 10), ("y", .num 20)]] :=
  (parser_extracts_actions sampleMessages (by rfl)).trans rfl

/-- One dispatched invocation: the operation name and the remaining action
fields passed as named arguments. -/
abbrev Invocation := String × List (String × JVal)

/-- Dispatch loop of `replay_trajectory`: for each action, compute
`action_args = {k: v for k, v in action.items() if k != "type"}`, look the
type up on the handler (`getattr(handler, action_type, None)`), invoke and
count it when found, and only log and continue when not. `known` says which
attribute names resolve to a dispatcher operation; the trace records the
invocations in order. `getattr` with a non-string (or missing, hence `None`)
attribute name raises `TypeError`, which the error case embeds. -/
def replayActions (known : String → Bool) : List JVal → Except String (Nat × List Invocation)
  | [] => .ok (0, [])
  | action :: rest =>
    match action with
    | .obj afields =>
      match dictGet afields "type" with
      | some (.str t) =>
        if known t then
          (replayActions known rest).map
            (fun r => (r.1 + 1, (t, afields.filter (fun p => p.1 != "type")) :: r.2))
        else replayActions known rest
      | _ => .error "TypeError: attribute name must be string"
    | _ => .error "AttributeError: action value has no attribute get"

/-- Does an action's `type` name a dispatcher operation? -/
def dispatchable (known : String → Bool) (action : JVal) : Bool :=
  match action with
  | .obj afields =>
    match dictGet afields "type" with
    | some (.str t) => known t
    | _ => false
  | _ => false

/-- The invocation an action produces when its type names an operation. -/
def invocationOf (known : String → Bool) (action : JVal) : Option Invocation :=
  match action with
  | .obj afields =>
    match dictGet afields "type" with
    | some (.str t) =>
      if known t then some (t, afields.filter (fun p => p.1 != "type")) else none
    | _ => none
  | _ => none

/-- Is the action a dict whose `type` value is a string? -/
def actionTypeIsString (action : JVal) : Bool :=
  match action with
  | .obj afields =>
    match dictGet afields "type" with
    | some (.str _) => true
    | _ => false
  | _ => false

/-- C3: the replay driver dispatches every action whose type names a handler
operation, passing the remaining fields as named arguments, skips every
action whose type names no operation without aborting the iteration, and
returns exactly the number of successfully dispatched actions. -/
theorem driver_counts_dispatched (known : String → Bool) (actions : List JVal)
    (h : actions.all actionTypeIsString = true) :
    replayActions known actions =
      .ok (actions.countP (dispatchable known), actions.filterMap (invocationOf known)) := by
  induction actions with
  | nil => rfl
  | cons action rest ih =>
    rw [List.all_cons, Bool.and_eq_true] at h
    obtain ⟨h1, h2⟩ := h
    have ihr := ih h2
    cases action with
    | obj afields =>
      cases ht : dictGet afields "type" with
      | none => simp [actionTypeIsString, ht] at h1
      | some v =>
        cases v with
        | str t =>
          by_cases hk : known t = true
          · simp [replayActions, dispatchable, invocationOf, List.countP_cons,
              ht, hk, ihr, Except.map]
          · simp [replayActions, dispatchable, invocationOf, List.countP_cons,
              ht, hk, ihr]
        | null => simp [actionTypeIsString, ht] at h1
        | bool b => simp [actionTypeIsString, ht] at h1
        | num n => simp [actionTypeIsString, ht] at h1
        | arr items => simp [actionTypeIsString, ht] at h1
        | obj fields => simp [actionTypeIsString, ht] at h1
    | null => simp [actionTypeIsString] at h1
    | bool b => simp [actionTypeIsString] at h1
    | num n => simp [actionTypeIsString] at h1
    | str s => simp [actionTypeIsString] at h1
    | arr items => simp [actionTypeIsString] at h1

/-- Dispatcher exposing the three operations of the witness run. -/
def knownOps : String → Bool := fun t =>
  t == "move" || t == "click" || t == "type"

/-- Three actions, the middle one of an unknown type. -/
def sampleActions : List JVal := [
  .obj [("type", .str "move"), ("x", .num 1), ("y", .num 2)],
  .obj [("type", .str "hover_mystery"), ("x", .num 3)],
  .obj [("type", .str "click"), ("button", .str "left")]]

theorem driver_counts_dispatched_witness :
    replayActions knownOps sampleActions =
      .ok (2, [("move", [("x", .num 1), ("y", .num 2)]),
               ("click", [("button", .str "left")])]) :=
  (driver_counts_dispatched knownOps sampleActions (by rfl)).trans rfl

/-!
History selector: `sorted(trajectory_path.rglob("*_agent_response.json"))[-1]`.
-/

/-- Python path-string comparison used by `sorted`: lexicographic on code
points (a proper prefix sorts first). -/
def pathLe (a b : String) : Prop :=
  a.data ≤ b.data

instance pathLe_decidable : DecidableRel pathLe := fun a b =>
  inferInstanceAs (Decidable (a.data ≤ b.data))

instance pathLe_total : IsTotal String pathLe :=
  ⟨fun a b => le_total a.data b.data⟩

instance pathLe_trans : IsTrans String pathLe :=
  ⟨fun _ _ _ hab hbc => le_trans hab hbc⟩

theorem pathLe_antisymm (a b : String) (hab : pathLe a b) (hba : pathLe b a) :
    a = b := by
  cases a; cases b
  exact congrArg String.mk (le_antisymm hab hba)

/-- Python `sorted(...)` over path strings (a stable comparison sort). -/
def pySorted (files : List String) : List String :=
  List.insertionSort pathLe files

/-- Filename test of `trajectory_path.rglob("*_agent_response.json")`. -/
def isResponseFile (f : String) : Bool :=
  ("_agent_response.json".data).isSuffixOf f.data

/-- History selection of `replay_trajectory`:
`response_files = sorted(trajectory_path.rglob("*_agent_response.json"))`
followed by `response_files[-1]`, `none` when no artifact matches. -/
def selectLatest (files : List String) : Option String :=
  (pySorted (files.filter isResponseFile)).getLast?

theorem le_getLast_of_sorted (l : List String) (hs : l.Sorted pathLe) (x : String)
    (hx : x ∈ l) (hne : l ≠ []) : pathLe x (l.getLast hne) := by
  induction l with
  | nil => cases hx
  | cons a t ih =>
    cases t with
    | nil =>
      have hxa : x = a := by simpa using hx
      subst hxa
      exact le_refl x.data
    | cons b t2 =>
      rw [List.getLast_cons (by simp : b :: t2 ≠ [])]
      rcases List.mem_cons.mp hx with rfl | hx2
      · exact (List.sorted_cons.mp hs).1 _ (List.getLast_mem _)
      · exact ih (List.sorted_cons.mp hs).2 hx2 (by simp)

/-- View of the trajectory directory: whether `trajectory_path.exists()`, the
path strings `rglob` can reach, and each file's JSON-parsed content. -/
structure TrajectoryFS where
  present : Bool
  files : List String
  content : String → JVal

/-- Exceptions `replay_trajectory` can raise: `ValueError` for an unset
`trajectory_dir`, `FileNotFoundError` for a missing directory, and runtime
errors propagating from the extraction/dispatch loops. -/
inductive ReplayError where
  | valueError (msg : String)
  | fileNotFound (msg : String)
  | runtime (msg : String)

/-- `data.get("kwargs", {}).get("messages", [])` followed by iteration:
missing keys default to `{}` and `[]`; a non-dict `kwargs` value raises; a
non-list `messages` value is iterated the way Python would — a string yields
its characters, a dict yields its keys (none of which are dicts, so the
extraction loop collects nothing from them), anything else raises
`TypeError`. -/
def getMessages (data : JVal) : Except String (List JVal) :=
  match data with
  | .obj dfields =>
    match dictGet dfields "kwargs" with
    | none => .ok []
    | some (.obj kfields) =>
      match dictGet kfields "messages" with
      | none => .ok []
      | some (.arr items) => .ok items
      | some (.str s) => .ok (s.data.map (fun c => .str (String.mk [c])))
      | some (.obj kv) => .ok (kv.map (fun p => .str p.1))
      | some _ => .error "TypeError: messages value is not iterable"
    | some _ => .error "AttributeError: kwargs value has no attribute get"
  | _ => .error "AttributeError: loaded data has no attribute get"

/-- `replay_trajectory(trajectory_dir, session, action_delay)`.
`dirSpecified` embeds the `if not trajectory_dir` guard; `known` abstracts
which attribute names resolve to operations on the `cuaComputerHandler`
built from the session (handler construction, the awaited remote calls and
the inter-action `asyncio.sleep` pacing are external effects; a remote call
that returns is modelled by the recorded invocation). Returns
`actions_executed`. -/
def replay_trajectory (dirSpecified : Bool) (fs : TrajectoryFS)
    (known : String → Bool) : Except ReplayError Nat :=
  if !dirSpecified then .error (.valueError "trajectory_dir is None or empty")
  else if !fs.present then .error (.fileNotFound "Trajectory directory not found")
  else
    match selectLatest fs.files with
    | none => .ok 0
    | some latest_response_file =>
      match getMessages (fs.content latest_response_file) with
      | .error e => .error (.runtime e)
      | .ok messages =>
        match collectActions messages with
        | .error e => .error (.runtime e)
        | .ok actions_to_execute =>
          if actions_to_execute.isEmpty then .ok 0
          else
            match replayActions known actions_to_execute with
            | .error e => .error (.runtime e)
            | .ok r => .ok r.1

/-- Replay reads only the selected artifact: two directory contents agreeing
on the selected file give identical replay outcomes. -/
theorem replay_trajectory_content_congr (files : List String)
    (c₁ c₂ : String → JVal) (known : String → Bool) (latest : String)
    (hsel : selectLatest files = some latest)
    (hcc : c₁ latest = c₂ latest) :
    replay_trajectory true ⟨true, files, c₁⟩ known =
      replay_trajectory true ⟨true, files, c₂⟩ known := by
  simp [replay_trajectory, hsel, hcc]

/-- C5: for a non-empty session whose artifact filenames embed monotonically
increasing indices (encoding respects the path order and carries the
response-file suffix), the selector picks exactly the artifact with the
highest index, and the replay outcome depends only on that single artifact's
content — actions are never drawn from any other artifact. -/
theorem selector_picks_highest_index (idxs : List Nat) (enc : Nat → String)
    (hne : idxs ≠ [])
    (hsuffix : ∀ i ∈ idxs, isResponseFile (enc i) = true)
    (hmono : ∀ i ∈ idxs, ∀ j ∈ idxs, i < j → enc i ≠ enc j ∧ pathLe (enc i) (enc j)) :
    ∃ m, m ∈ idxs ∧ (∀ j ∈ idxs, j ≤ m) ∧
      selectLatest (idxs.map enc) = some (enc m) ∧
      (∀ (c₁ c₂ : String → JVal) (known : String → Bool),
        c₁ (enc m) = c₂ (enc m) →
        replay_trajectory true ⟨true, idxs.map enc, c₁⟩ known =
          replay_trajectory true ⟨true, idxs.map enc, c₂⟩ known) := by
  have hfilter : (idxs.map enc).filter isResponseFile = idxs.map enc := by
    apply List.filter_eq_self.mpr
    intro f hf
    obtain ⟨i, hi, rfl⟩ := List.mem_map.mp hf
    exact hsuffix i hi
  have hperm : (pySorted (idxs.map enc)).Perm (idxs.map enc) :=
    List.perm_insertionSort pathLe (idxs.map enc)
  have hsne : pySorted (idxs.map enc) ≠ [] := by
    intro h0
    rw [h0] at hperm
    exact hne (List.map_eq_nil_iff.mp hperm.symm.eq_nil)
  have hbmem : (pySorted (idxs.map enc)).getLast hsne ∈ pySorted (idxs.map enc) :=
    List.getLast_mem hsne
  have hbmem2 : (pySorted (idxs.map enc)).getLast hsne ∈ idxs.map enc :=
    hperm.mem_iff.mp hbmem
  obtain ⟨m, hm, hbm⟩ := List.mem_map.mp hbmem2
  have hmax : ∀ j ∈ idxs, j ≤ m := by
    intro j hj
    by_contra hjm
    push_neg at hjm
    obtain ⟨hne2, hle⟩ := hmono m hm j hj hjm
    have hjb : pathLe (enc j) ((pySorted (idxs.map enc)).getLast hsne) :=
      le_getLast_of_sorted _ (List.sorted_insertionSort pathLe _) _
        (hperm.mem_iff.mpr (List.mem_map.mpr ⟨j, hj, rfl⟩)) hsne
    rw [← hbm] at hjb
    exact hne2 (pathLe_antisymm _ _ hle hjb)
  have hsel : selectLatest (idxs.map enc) = some (enc m) := by
    unfold selectLatest
    rw [hfilter, List.getLast?_eq_getLast _ hsne, hbm]
  exact ⟨m, hm, hmax, hsel, fun c₁ c₂ known hcc =>
    replay_trajectory_content_congr _ _ _ _ _ hsel hcc⟩

/-- Index-to-filename encoding of the witness session. -/
def encIdx (n : Nat) : String :=
  toString n ++ "_agent_response.json"

theorem selector_picks_highest_index_witness :
    ∃ m, m ∈ [3, 1, 2] ∧ (∀ j ∈ [3, 1, 2], j ≤ m) ∧
      selectLatest ([3, 1, 2].map encIdx) = some (encIdx m) ∧
      (∀ (c₁ c₂ : String → JVal) (known : String → Bool),
        c₁ (encIdx m) = c₂ (encIdx m) →
        replay_trajectory true ⟨true, [3, 1, 2].map encIdx, c₁⟩ known =
          replay_trajectory true ⟨true, [3, 1, 2].map encIdx, c₂⟩ known) :=
  selector_picks_highest_index [3, 1, 2] encIdx (by decide) (by decide) (by decide)

/-- C8: an existing trajectory directory with zero response artifacts, or a
selected artifact with zero replayable actions, makes replay return 0
without raising; a missing directory raises `FileNotFoundError` and an
unset `trajectory_dir` raises `ValueError` — configuration failures distinct
from empty-history. -/
theorem replay_empty_vs_missing (fs : TrajectoryFS) (known : String → Bool) :
    (fs.present = true → fs.files.filter isResponseFile = [] →
      replay_trajectory true fs known = .ok 0) ∧
    (∀ latest msgs, fs.present = true →
      selectLatest fs.files = some latest →
      getMessages (fs.content latest) = .ok msgs →
      collectActions msgs = .ok [] →
      replay_trajectory true fs known = .ok 0) ∧
    (fs.present = false →
      replay_trajectory true fs known =
        .error (.fileNotFound "Trajectory directory not found")) ∧
    (replay_trajectory false fs known =
      .error (.valueError "trajectory_dir is None or empty")) := by
  refine ⟨?_, ?_, ?_, ?_⟩
  · intro hp hempty
    have hsel : selectLatest fs.files = none := by
      simp [selectLatest, hempty, pySorted]
    simp [replay_trajectory, hp, hsel]
  · intro latest msgs hp hsel hmsgs hacts
    simp [replay_trajectory, hp, hsel, hmsgs, hacts]
  · intro hp
    simp [replay_trajectory, hp]
  · simp [replay_trajectory]

/-- Directory that exists but holds no response artifact. -/
def emptyTrajectoryFS : TrajectoryFS :=
  ⟨true, ["notes.txt"], fun _ => .null⟩

/-- Directory whose only artifact carries no replayable action (a screenshot
call only). -/
def actionlessTrajectoryFS : TrajectoryFS :=
  ⟨true, ["0_agent_response.json"], fun _ =>
    .obj [("kwargs", .obj [("messages", .arr [
      .obj [("type", .str "computer_call"),
            ("action", .obj [("type", .str "screenshot")])]])])]⟩

/-- Directory that does not exist. -/
def missingTrajectoryFS : TrajectoryFS :=
  ⟨false, [], fun _ => .null⟩

theorem replay_empty_vs_missing_witness :
    replay_trajectory true emptyTrajectoryFS knownOps = .ok 0 ∧
      replay_trajectory true actionlessTrajectoryFS knownOps = .ok 0 ∧
      replay_trajectory true missingTrajectoryFS knownOps =
        .error (.fileNotFound "Trajectory directory not found") ∧
      replay_trajectory false emptyTrajectoryFS knownOps =
        .error (.valueError "trajectory_dir is None or empty") :=
  ⟨(replay_empty_vs_missing emptyTrajectoryFS knownOps).1 rfl (by decide),
   (replay_empty_vs_missing actionlessTrajectoryFS knownOps).2.1
     "0_agent_response.json" _ rfl (by decide) rfl rfl,
   (replay_empty_vs_missing missingTrajectoryFS knownOps).2.2.1 rfl,
   (replay_empty_vs_missing emptyTrajectoryFS knownOps).2.2.2⟩

/-!
Milestone tool: `agent/tools/milestone.py`.
-/

/-- Regex test `^[A-Za-z]:\\`: a letter, a colon, then a backslash. -/
def driveBackslashTest : List Char → Bool
  | c :: d :: e :: _ => c.isAlpha && d == ':' && e == '\\'
  | _ => false

/-- `path.startswith('\\\\')`: a UNC start of two backslashes. -/
def uncStart : List Char → Bool
  | a :: b :: _ => a == '\\' && b == '\\'
  | _ => false

/-- `'\\' in path`. -/
def backslashIn : List Char → Bool
  | [] => false
  | c :: rest => c == '\\' || backslashIn rest

/-- `MilestoneTool._is_windows_path`: the regex match, the UNC test, or a
backslash anywhere in the path. -/
def is_windows_path (path : String) : Bool :=
  driveBackslashTest path.data || uncStart path.data || backslashIn path.data

/-- Dispatch condition as the claim words it: a drive-letter start (a letter
followed by a colon), a UNC start, or a backslash anywhere. -/
def claimWindowsTest (path : String) : Bool :=
  (match path.data with
   | c :: d :: _ => c.isAlpha && d == ':'
   | _ => false) || uncStart path.data || backslashIn path.data

theorem backslashIn_of_driveBackslashTest (l : List Char)
    (h : driveBackslashTest l = true) : backslashIn l = true := by
  match l with
  | [] => simp [driveBackslashTest] at h
  | [c] => simp [driveBackslashTest] at h
  | [c, d] => simp [driveBackslashTest] at h
  | c :: d :: e :: t =>
    simp only [driveBackslashTest, Bool.and_eq_true] at h
    simp [backslashIn, h.2]

theorem backslashIn_of_uncStart (l : List Char)
    (h : uncStart l = true) : backslashIn l = true := by
  match l with
  | [] => simp [uncStart] at h
  | [c] => simp [uncStart] at h
  | a :: b :: t =>
    simp only [uncStart, Bool.and_eq_true] at h
    simp [backslashIn, h.1]

/-- C9 counterexample: the tool's own documented example path
`C:/Users/User/Desktop/milestones/step1.png` has a drive-letter prefix, so
the claim's condition classifies it as Windows, but the code's regex demands
a backslash after the colon and classifies it as POSIX. -/
theorem windows_path_claim_counterexample :
    claimWindowsTest "C:/Users/User/Desktop/milestones/step1.png" = true ∧
      is_windows_path "C:/Users/User/Desktop/milestones/step1.png" = false :=
  ⟨rfl, rfl⟩

/-- C9 amended: the path is dispatched through the Windows routines exactly
when it contains a backslash — the drive-letter and UNC alternatives of the
code's test both require backslashes themselves, so the whole test collapses
to backslash presence, and a drive-letter path written with forward slashes
is treated as POSIX-style. -/
theorem windows_path_iff_backslash (path : String) :
    is_windows_path path = backslashIn path.data := by
  unfold is_windows_path
  cases hdr : driveBackslashTest path.data
  · cases hu : uncStart path.data
    · simp
    · simp [backslashIn_of_uncStart _ hu]
  · simp [backslashIn_of_driveBackslashTest _ hdr]

/-- Result payload of a tool call: `{"success": True, "message": ...}` or
`{"success": False, "error": ...}`. -/
inductive ToolResult where
  | success (message : String)
  | failure (error : String)

/-- External capability surface the tool consumes (spec section 6): each
remote operation either returns or raises an exception whose text
(`str(e)`, possibly empty) the `Except` error carries. -/
structure RemoteInterface where
  screenshot : Except String (List Nat)
  run_command : String → Except String Unit
  write_bytes : String → List Nat → Except String Unit

/-- Path-splitting routines of the two conventions: `ntpath.dirname` and
`posixpath.dirname` are Python standard-library collaborators outside this
repository, abstracted as parameters. -/
structure PathOps where
  ntDirname : String → String
  posixDirname : String → String

/-- PowerShell directory-creation command built by `_execute_save`. -/
def windowsMkdirCommand (dir : String) : String :=
  "powershell -Command \"New-Item -ItemType Directory -Force -Path \x27" ++
    dir ++ "\x27 | Out-Null\""

/-- Shell directory-creation command built by `_execute_save`. -/
def unixMkdirCommand (dir : String) : String :=
  "mkdir -p \"" ++ dir ++ "\""

/-- Success message of `_execute_save` (`if description: msg += ...`). -/
def savedMessage (path description : String) : String :=
  "✅ Milestone screenshot saved to: " ++ path ++
    (if description ≠ "" then " (Milestone: " ++ description ++ ")" else "")

/-- Local `dir_path` of `_execute_save`: the convention-appropriate
`dirname`. -/
def milestoneDirPath (ops : PathOps) (path : String) : String :=
  if is_windows_path path then ops.ntDirname path else ops.posixDirname path

/-- Directory-preparation step of `_execute_save`: when `dir_path` is truthy
and not `"."`, run the convention-appropriate creation command. -/
def milestoneMkdir (ops : PathOps) (iface : RemoteInterface)
    (path : String) : Except String Unit :=
  if milestoneDirPath ops path ≠ "" ∧ milestoneDirPath ops path ≠ "." then
    iface.run_command
      (if is_windows_path path then windowsMkdirCommand (milestoneDirPath ops path)
       else unixMkdirCommand (milestoneDirPath ops path))
  else .ok ()

/-- `MilestoneTool._execute_save`: take the screenshot, derive and create the
parent directory through the convention-appropriate routine, then write the
bytes; each stage's exception becomes a structured failure result. -/
def execute_save (ops : PathOps) (iface : RemoteInterface)
    (path description : String) : ToolResult :=
  match iface.screenshot with
  | .error e => .failure e
  | .ok screenshot_bytes =>
    match milestoneMkdir ops iface path with
    | .error e => .failure ("Failed to create directory: " ++ e)
    | .ok _ =>
      match iface.write_bytes path screenshot_bytes with
      | .error e => .failure ("Failed to save screenshot: " ++ e)
      | .ok _ => .success (savedMessage path description)

/-- `MilestoneTool.call`: parameters arrive already verified
(`_verify_json_format_args` lives in the SDK `base.py`, outside this
repository); a missing or falsy `path` is rejected, otherwise the async
bridge runs `_execute_save` and returns its result; the surrounding
try/except turns any escaping exception into a failure result, so the
function is total. -/
def milestone_call (ops : PathOps) (iface : RemoteInterface)
    (pathParam : Option String) (descriptionParam : Option String) : ToolResult :=
  match pathParam with
  | none => .failure "path parameter is required"
  | some p =>
    if p = "" then .failure "path parameter is required"
    else execute_save ops iface p (descriptionParam.getD "")

theorem prefixed_ne_empty (s t : String) (hs : s ≠ "") : s ++ t ≠ "" := by
  cases s with
  | mk a =>
    cases t with
    | mk b =>
      intro h
      have hd : a ++ b = ([] : List Char) := congrArg String.data h
      have ha : a = [] := (List.append_eq_nil.mp hd).1
      subst ha
      exact hs rfl

/-- Interface whose screenshot call raises an exception with empty text
(as `raise RuntimeError()` does: `str(e) == ""`). -/
def emptyErrorInterface : RemoteInterface :=
  ⟨.error "", fun _ => .ok (), fun _ _ => .ok ()⟩

/-- C7 counterexample: a screenshot failure whose exception text is empty
is returned as `{"success": False, "error": ""}` — a structured failure
whose error string is empty, against the claim that the error string is
always non-empty. -/
theorem milestone_empty_error_counterexample :
    milestone_call ⟨fun _ => "", fun _ => ""⟩ emptyErrorInterface
      (some "/tmp/milestones/step1.png") none = .failure "" := rfl

/-- C7 amended: the call is a total function of its inputs (the embedding of
the try/except boundaries — no exception escapes), returning on success the
structured message carrying the saved path and the description when
supplied, and on any failure a structured error string that is non-empty
except possibly when it is the verbatim text of the screenshot-stage
exception. -/
theorem milestone_call_shape (ops : PathOps) (iface : RemoteInterface)
    (pathParam descriptionParam : Option String) :
    (∀ m, milestone_call ops iface pathParam descriptionParam = .success m →
      ∃ p, pathParam = some p ∧ p ≠ "" ∧
        m = savedMessage p (descriptionParam.getD "")) ∧
    (∀ e, milestone_call ops iface pathParam descriptionParam = .failure e →
      e ≠ "" ∨ iface.screenshot = .error e) := by
  constructor
  · intro m hm
    cases pathParam with
    | none => simp [milestone_call] at hm
    | some p =>
      by_cases hp : p = ""
      · simp [milestone_call, hp] at hm
      · simp only [milestone_call, if_neg hp] at hm
        unfold execute_save at hm
        split at hm
        · simp at hm
        · split at hm
          · simp at hm
          · split at hm
            · simp at hm
            · refine ⟨p, rfl, hp, ?_⟩
              injection hm with h
              exact h.symm
  · intro e he
    cases pathParam with
    | none =>
      simp only [milestone_call] at he
      injection he with h
      subst h
      exact Or.inl (by decide)
    | some p =>
      by_cases hp : p = ""
      · simp only [milestone_call, hp, if_pos rfl] at he
        injection he with h
        subst h
        exact Or.inl (by decide)
      · simp only [milestone_call, if_neg hp] at he
        unfold execute_save at he
        split at he
        · rename_i e0 hs
          injection he with h
          subst h
          exact Or.inr hs
        · split at he
          · injection he with h
            subst h
            exact Or.inl (prefixed_ne_empty _ _ (by decide))
          · split at he
            · injection he with h
              subst h
              exact Or.inl (prefixed_ne_empty _ _ (by decide))
            · simp at he

/-- Interface every operation of which succeeds. -/
def allOkInterface : RemoteInterface :=
  ⟨.ok [137, 80, 78, 71], fun _ => .ok (), fun _ _ => .ok ()⟩

/-- Concrete stand-ins for the stdlib dirname routines. -/
def simplePathOps : PathOps :=
  ⟨fun _ => "C:\\milestones", fun _ => "/tmp/milestones"⟩

theorem milestone_call_shape_witness :
    ∃ p, some "/tmp/milestones/step1.png" = some p ∧ p ≠ "" ∧
      savedMessage "/tmp/milestones/step1.png" "done" = savedMessage p "done" :=
  (milestone_call_shape simplePathOps allOkInterface
      (some "/tmp/milestones/step1.png") (some "done")).1
    (savedMessage "/tmp/milestones/step1.png" "done") rfl
